import Mathlib

/-!
Verification of the rmcs H.264/WebRTC streaming backend.

This file shallowly embeds the parts of the Go source that the verified
properties are about:

* `h264_parser.go`: NAL-unit splitting (`FindNALUnits` with its Annex-B and
  length-prefixed branches), SPS/PPS caching (`ProcessNALUnits`) and Annex-B
  reassembly (`ConvertToAnnexB`).  Byte buffers are `List Nat` (each element a
  byte value); index loops of the source become fuel-indexed recursions where
  the fuel bounds the number of loop iterations (the source loops advance
  their index by at least one per iteration, so `length + 1` fuel is always
  enough and the fuel never runs out on the wrapper entry points).
* `lib/camera_capture.go`: the camera producer loop `readH264Stream`
  (modelled as a state machine over the sequence of extracted NAL bodies),
  `addEmulationPrevention` and `createSimpleTimestampSEI`.
* `lib/webrtc.go`: the registry effect of `ProcessOffer`, `AddICECandidate`,
  the `SwitchCamera` guard, and the camera table.
* `lib/webrtc.go` (library façade): the return-code logic of `RMCSInit`.
* the `VideoStreamer` file-sequence adapter: `extractNumber` and the numeric
  sort of `LoadH264Files` (filenames are `List Char`).

Effects the properties do not mention (logging, real I/O, the pion WebRTC
stack, MQTT transport) are elided; fallible operations return `Except` or
`Option`, exactly mirroring the source's error returns.
-/

/-- Low 5 bits of the first byte of a NAL body (`nalUnit[0] & 0x1F`);
empty bodies read as type 0, matching the guarded uses in the source. -/
def nalType (n : List Nat) : Nat := n.headD 0 &&& 31

/-- Byte access `data[i]`; the default 2 is never a start-code byte, and every
use in the embedded code is range-guarded exactly as in the source. -/
def byteAt (d : List Nat) (i : Nat) : Nat := d.getD i 2

/-- Four-byte start code test `data[i..i+3] = 00 00 00 01` from
`parseAnnexBFormat` / `findNextStartCode` in `h264_parser.go`. -/
def isStartCode4 (d : List Nat) (i : Nat) : Bool :=
  byteAt d i == 0 && byteAt d (i+1) == 0 && byteAt d (i+2) == 0 && byteAt d (i+3) == 1

/-- Three-byte start code test `data[i..i+2] = 00 00 01`. -/
def isStartCode3 (d : List Nat) (i : Nat) : Bool :=
  byteAt d i == 0 && byteAt d (i+1) == 0 && byteAt d (i+2) == 1

/-- Loop body of `findNextStartCode` (`h264_parser.go` lines 124-134): scan
`i` upward while `i < len(data)-3`, returning the first position carrying a
4- or 3-byte start code.  The fuel counts remaining iterations; the wrapper
passes enough for the whole scan. -/
def findNSC (d : List Nat) : Nat → Nat → Option Nat
  | 0, _ => none
  | fuel+1, i =>
    if i + 3 < d.length then
      if isStartCode4 d i || isStartCode3 d i then some i
      else findNSC d fuel (i+1)
    else none

/-- `findNextStartCode(data, start)`; `none` models the `-1` return. -/
def findNextStartCode (d : List Nat) (start : Nat) : Option Nat :=
  findNSC d (d.length + 1) start

/-- Loop body of `parseAnnexBFormat` (`h264_parser.go` lines 83-122): at each
start code, the body runs to the next start code (or to the end of the data),
and is kept only when nonempty. -/
def parseABLoop (d : List Nat) : Nat → Nat → List (List Nat)
  | 0, _ => []
  | fuel+1, i =>
    if i + 3 < d.length then
      if isStartCode4 d i then
        let start := i + 4
        let next := (findNextStartCode d start).getD d.length
        (if start < next then [(d.drop start).take (next - start)] else []) ++
          parseABLoop d fuel next
      else if isStartCode3 d i then
        let start := i + 3
        let next := (findNextStartCode d start).getD d.length
        (if start < next then [(d.drop start).take (next - start)] else []) ++
          parseABLoop d fuel next
      else parseABLoop d fuel (i+1)
    else []

/-- `parseAnnexBFormat` on a whole buffer. -/
def parseAnnexBFormat (d : List Nat) : List (List Nat) :=
  parseABLoop d (d.length + 1) 0

/-- Loop body of `parseLengthPrefixedFormat` (`h264_parser.go` lines 52-80):
read a 4-byte big-endian length, stop on a nonpositive length or a truncated
tail, otherwise extract the body and continue after it. -/
def parseLPLoop (d : List Nat) : Nat → Nat → List (List Nat)
  | 0, _ => []
  | fuel+1, i =>
    if i + 4 ≤ d.length then
      let len := byteAt d i * 16777216 + byteAt d (i+1) * 65536 +
        byteAt d (i+2) * 256 + byteAt d (i+3)
      if 0 < len ∧ i + 4 + len ≤ d.length then
        ((d.drop (i+4)).take len) :: parseLPLoop d fuel (i + 4 + len)
      else []
    else []

/-- `parseLengthPrefixedFormat` on a whole buffer. -/
def parseLengthPrefixedFormat (d : List Nat) : List (List Nat) :=
  parseLPLoop d (d.length + 1) 0

/-- `isAnnexBFormat` (`h264_parser.go` lines 33-49). -/
def isAnnexBFormat (d : List Nat) : Bool :=
  if d.length < 4 then false
  else if byteAt d 0 == 0 && byteAt d 1 == 0 && byteAt d 2 == 0 && byteAt d 3 == 1 then true
  else if 3 ≤ d.length && byteAt d 0 == 0 && byteAt d 1 == 0 && byteAt d 2 == 1 then true
  else false

/-- `FindNALUnits` (`h264_parser.go` lines 23-30): framing detection then split. -/
def FindNALUnits (d : List Nat) : List (List Nat) :=
  if isAnnexBFormat d then parseAnnexBFormat d else parseLengthPrefixedFormat d

/-- `ConvertToAnnexB` (`h264_parser.go` lines 172-183): prepend the 4-byte
start code `00 00 00 01` to each NAL body and concatenate. -/
def ConvertToAnnexB : List (List Nat) → List Nat
  | [] => []
  | n :: ns => [0, 0, 0, 1] ++ n ++ ConvertToAnnexB ns

/-- The `H264Parser` mutable fields `sps`/`pps` (nil is the empty list). -/
structure ParserState where
  sps : List Nat
  pps : List Nat
deriving Repr, DecidableEq

/-- One iteration of the `ProcessNALUnits` loop (`h264_parser.go` lines
137-169) on a single NAL body: empty bodies are skipped, SPS/PPS are cached
and passed through, an IDR is prepended with the cached SPS and PPS when both
are nonempty, and everything else passes through. -/
def processStep (st : ParserState) (nalUnit : List Nat) : ParserState × List (List Nat) :=
  if nalUnit.length = 0 then (st, [])
  else
    let t := nalType nalUnit
    if t = 7 then ({ st with sps := nalUnit }, [nalUnit])
    else if t = 8 then ({ st with pps := nalUnit }, [nalUnit])
    else if t = 5 ∨ t = 1 then
      (st, (if t = 5 ∧ 0 < st.sps.length ∧ 0 < st.pps.length
            then [st.sps, st.pps] else []) ++ [nalUnit])
    else (st, [nalUnit])

/-- The whole `ProcessNALUnits` loop, threading the parser state and
concatenating the emitted units. -/
def processRun (st : ParserState) : List (List Nat) → ParserState × List (List Nat)
  | [] => (st, [])
  | n :: ns =>
    let (st1, o1) := processStep st n
    let (st2, o2) := processRun st1 ns
    (st2, o1 ++ o2)

/-- `ProcessNALUnits` starting from a fresh `H264Parser` (nil caches). -/
def ProcessNALUnits (ns : List (List Nat)) : List (List Nat) :=
  (processRun ⟨[], []⟩ ns).2

/-- A sample written to the track by the camera producer: either a bare NAL
(`sendNALUnitNoSEI`) or a NAL with a timestamp SEI prepended
(`sendNALUnitWithSEI`).  Start codes and the SEI bytes themselves are not
part of the sample identity needed here. -/
inductive Sample where
  | noSEI (nal : List Nat)
  | withSEI (nal : List Nat)
deriving Repr, DecidableEq

/-- NAL type of a sample's primary NAL body. -/
def Sample.typ : Sample → Nat
  | .noSEI n => nalType n
  | .withSEI n => nalType n

/-- The mutable state of `readH264Stream` (`lib/camera_capture.go` lines
120-224): the cached SPS/PPS/IDR of the `CameraCapture` and the local
`waitingForConfig` flag. -/
structure CamState where
  sps : Option (List Nat)
  pps : Option (List Nat)
  lastIDR : Option (List Nat)
  waiting : Bool
deriving Repr, DecidableEq

/-- Processing of one extracted NAL body by `readH264Stream`: cache SPS/PPS
(flushing the initial SPS+PPS when the config first completes), cache an IDR,
skip everything while `waitingForConfig`, prepend cached SPS+PPS before an
IDR, and send slices (types 1 and 5) with an SEI, all other types without. -/
def camStep (s : CamState) (nal : List Nat) : CamState × List Sample :=
  if nal.length = 0 then (s, [])
  else
    let t := nalType nal
    let (s1, out1) :=
      if t = 7 then ({ s with sps := some nal }, [])
      else if t = 8 then
        let s' := { s with pps := some nal }
        if s'.waiting ∧ s'.sps.isSome ∧ s'.pps.isSome then
          ({ s' with waiting := false },
            [Sample.noSEI (s'.sps.getD []), Sample.noSEI (s'.pps.getD [])])
        else (s', [])
      else if t = 5 then ({ s with lastIDR := some nal }, [])
      else (s, [])
    if s1.waiting then (s1, out1)
    else
      let out2 :=
        if t = 5 then
          (match s1.sps with | some sp => [Sample.noSEI sp] | none => []) ++
          (match s1.pps with | some pp => [Sample.noSEI pp] | none => [])
        else []
      let out3 := if t = 1 ∨ t = 5 then [Sample.withSEI nal] else [Sample.noSEI nal]
      (s1, out1 ++ out2 ++ out3)

/-- The `readH264Stream` loop over a sequence of extracted NAL bodies. -/
def camRun (s : CamState) : List (List Nat) → CamState × List Sample
  | [] => (s, [])
  | n :: ns =>
    let (s1, o1) := camStep s n
    let (s2, o2) := camRun s1 ns
    (s2, o1 ++ o2)

/-- Initial state of `readH264Stream`: empty caches, `waitingForConfig = true`. -/
def camInit : CamState := ⟨none, none, none, true⟩

/-- The samples the camera producer emits on a sequence of NAL bodies. -/
def camEmit (ns : List (List Nat)) : List Sample := (camRun camInit ns).2

/-- Loop of `addEmulationPrevention` (`lib/camera_capture.go` lines 349-370),
with the `zeroCount` accumulator made explicit: when two zeros have been
written and the next byte is at most 3, a `0x03` byte is inserted and the
counter resets. -/
def emuGo : Nat → List Nat → List Nat
  | _, [] => []
  | zc, b :: rest =>
    if zc = 2 ∧ b ≤ 3 then 3 :: b :: emuGo (if b = 0 then 1 else 0) rest
    else b :: emuGo (if b = 0 then zc + 1 else 0) rest

/-- `addEmulationPrevention(data)`. -/
def addEmulationPrevention (data : List Nat) : List Nat := emuGo 0 data

/-- Modelled from the spec: the consumer-side emulation-prevention decoder is
not in this repository (it lives in the Flutter client); §8 of the spec
defines it as "strip 0x03 after any 0x00 0x00".  The counter mirrors the
encoder's. -/
def remGo : Nat → List Nat → List Nat
  | _, [] => []
  | zc, b :: rest =>
    if zc = 2 ∧ b = 3 then remGo 0 rest
    else b :: remGo (if b = 0 then zc + 1 else 0) rest

/-- Spec-side decode of an emulation-prevented payload. -/
def removeEmulationPrevention (data : List Nat) : List Nat := remGo 0 data

/-- `binary.BigEndian.PutUint64` into 8 bytes (`byte(v >> k)` truncates). -/
def putUint64BE (t : Nat) : List Nat :=
  [t >>> 56 % 256, t >>> 48 % 256, t >>> 40 % 256, t >>> 32 % 256,
   t >>> 24 % 256, t >>> 16 % 256, t >>> 8 % 256, t % 256]

/-- Modelled from the spec: the consumer-side decode of the 8-byte big-endian
timestamp (`extractSeiPayload` in the Flutter client is not in this
repository). -/
def readUint64BE (l : List Nat) : Nat := l.foldl (fun a b => a * 256 + b) 0

/-- `createSimpleTimestampSEI` (`lib/camera_capture.go` lines 374-395):
NAL header `0x06`, emulation-prevented payload `{0x05, 0x08, 8-byte BE
timestamp}`, RBSP stop byte `0x80`. -/
def createSimpleTimestampSEI (timestampUs : Nat) : List Nat :=
  [6] ++ addEmulationPrevention ([5, 8] ++ putUint64BE timestampUs) ++ [128]

/-- The claim's reading of emulation prevention (C5, "insert a 0x03 exactly
at each position where two consecutive 0x00 bytes are followed by a byte
≤ 0x03"), tracking the two preceding INPUT bytes positionally; the sentinels
1,1 mean the first two positions have no two preceding bytes. -/
def insertByClaim : Nat → Nat → List Nat → List Nat
  | _, _, [] => []
  | p2, p1, b :: rest =>
    (if p2 = 0 ∧ p1 = 0 ∧ b ≤ 3 then [3, b] else [b]) ++ insertByClaim p1 b rest

/-- The claim-as-stated encoder for C5. -/
def claimEmulation (data : List Nat) : List Nat := insertByClaim 1 1 data

/-- The amended reading of emulation prevention: insert a 0x03 exactly where
the two immediately preceding OUTPUT bytes are both 0x00 and the next byte is
at most 0x03 (after an insertion the previous output byte is the 0x03). -/
def insertByOutput : Nat → Nat → List Nat → List Nat
  | _, _, [] => []
  | q2, q1, b :: rest =>
    if q2 = 0 ∧ q1 = 0 ∧ b ≤ 3 then 3 :: b :: insertByOutput 3 b rest
    else b :: insertByOutput q1 b rest

/-- The output-window encoder for the amended C5. -/
def outputWindowEmulation (data : List Nat) : List Nat := insertByOutput 1 1 data

/-- Bool test: does an emitted unit list contain a unit of NAL type `t`
before position `i`? -/
def hasTypeBefore (out : List (List Nat)) (i : Nat) (t : Nat) : Bool :=
  (List.range i).any (fun j => nalType (out.getD j []) == t)

/-- C1's property, on a plain emitted-unit list: no unit of type 1 or 5
occurs before both a type-7 and a type-8 unit have occurred. -/
def configBeforeSliceB (out : List (List Nat)) : Bool :=
  (List.range out.length).all (fun i =>
    !(nalType (out.getD i []) == 1 || nalType (out.getD i []) == 5) ||
      (hasTypeBefore out i 7 && hasTypeBefore out i 8))

/-- The peer registry of `WebRTCManager` (`lib/webrtc.go`): peer identifier
to peer-connection, as an association list with distinct keys (Go map);
connections are abstracted to identifiers. -/
abbrev Registry := List (String × Nat)

/-- Go map read `w.peerConnections[peerID]`. -/
def regGet (reg : Registry) (peerID : String) : Option Nat :=
  (reg.find? (fun e => e.1 == peerID)).map (·.2)

/-- Go map write `w.peerConnections[peerID] = pc` (replace or append). -/
def regSet (reg : Registry) (peerID : String) (pc : Nat) : Registry :=
  if (reg.find? (fun e => e.1 == peerID)).isSome then
    reg.map (fun e => if e.1 == peerID then (peerID, pc) else e)
  else reg ++ [(peerID, pc)]

/-- Registry effect of `ProcessOffer` (`lib/webrtc.go` lines 74-165) on the
success path: the existing connection for the peer (if any) is closed, a
fresh connection is created and stored under the same key.  Returns the new
registry and the list of connections closed. -/
def ProcessOffer (reg : Registry) (peerID : String) (newPC : Nat) :
    Registry × List Nat :=
  let closed := match regGet reg peerID with
    | some pc => [pc]
    | none => []
  (regSet reg peerID newPC, closed)

/-- An ICE candidate message as delivered by the signaling bridge
(`ICECandidateMessage` in `lib/webrtc.go`). -/
structure ICECandidateMessage where
  candidate : String
  sdpMid : String
  sdpMLineIndex : Nat
deriving Repr, DecidableEq

/-- Registry with the candidates each session has received (for C9 the
session state of interest is the list of forwarded candidates). -/
abbrev CandRegistry := List (String × List ICECandidateMessage)

/-- Lookup in the candidate registry. -/
def candGet (reg : CandRegistry) (peerID : String) : Option (List ICECandidateMessage) :=
  (reg.find? (fun e => e.1 == peerID)).map (·.2)

/-- `AddICECandidate` (`lib/webrtc.go` lines 167-190): unknown peer gives a
logged error (`fmt.Errorf`), otherwise the candidate is forwarded to (here:
recorded at) the peer's session. -/
def AddICECandidate (reg : CandRegistry) (peerID : String)
    (c : ICECandidateMessage) : Except String CandRegistry :=
  match candGet reg peerID with
  | none => .error ("no peer connection for " ++ peerID)
  | some _ => .ok (reg.map (fun e => if e.1 == peerID then (e.1, e.2 ++ [c]) else e))

/-- The `robotCandidateTopic` subscription handler (MQTT client, lines
184-212): each candidate of the JSON array is passed to `AddICECandidate`;
an error is only logged and the loop continues. -/
def handleRobotCandidates (reg : CandRegistry) (peerID : String)
    (cands : List ICECandidateMessage) : CandRegistry :=
  cands.foldl (fun r c =>
    match AddICECandidate r peerID c with
    | .ok r' => r'
    | .error _ => r) reg

/-- The static camera table of `SwitchCamera` (`lib/webrtc.go` lines 212-221). -/
def cameraMap (n : Int) : Option String :=
  if n = 1 then some "h264/flir_id8_image_resized_30fps"
  else if n = 2 then some "h264/leopard_id1_image_resized_30fps"
  else if n = 3 then some "h264/leopard_id3_image_resized_30fps"
  else if n = 4 then some "h264/leopard_id4_image_resized_30fps"
  else if n = 5 then some "h264/leopard_id5_image_resized_30fps"
  else if n = 6 then some "h264/leopard_id6_image_resized_30fps"
  else if n = 7 then some "h264/leopard_id7_image_resized_30fps"
  else none

/-- The `VideoStreamer` state that `SwitchCamera` can touch: the loaded
frame-file list (and the streaming flag, untouched by loading). -/
structure Streamer where
  frameFiles : List (List Char)
  isStreaming : Bool
deriving Repr, DecidableEq

/-- `SwitchCamera` (`lib/webrtc.go` lines 209-237), parametric in the
`LoadH264Files` operation (`load`): the camera number is looked up in the
static table first, and only on a hit is loading attempted; results carry
the resulting streamer state. -/
def SwitchCamera (load : Streamer → String → Except String Streamer × Streamer)
    (st : Streamer) (cameraNumber : Int) : Except String Unit × Streamer :=
  match cameraMap cameraNumber with
  | none => (.error s!"invalid camera number: {cameraNumber} (must be 1-7)", st)
  | some directory =>
    match load st directory with
    | (.ok st', _) => (.ok (), st')
    | (.error e, st') => (.error s!"failed to load camera files: {e}", st')

/-- `RMCSInit` (`lib/webrtc.go` library façade, lines 310-343): the instance
state is `none` (never initialized) or `some running`; `webrtcOk`/`mqttOk`
abstract whether `NewWebRTCManager` and the MQTT connect succeed.  Returns
the C return code and the new instance state. -/
def rmcsInit (inst : Option Bool) (webrtcOk : Bool) (mqttOk : Bool) :
    Int × Option Bool :=
  if inst = some true then (1, inst)
  else if !webrtcOk then (-1, inst)
  else if !mqttOk then (-2, inst)
  else (0, some true)

/-- `digitsToNat`: the digit run accepted by `strconv.Atoi` (overflow is not
modelled; the filenames of interest are small). -/
def digitsToNat (s : List Char) : Option Nat :=
  if s ≠ [] ∧ s.all (·.isDigit) then
    some (s.foldl (fun a c => a * 10 + (c.toNat - 48)) 0)
  else none

/-- `strconv.Atoi`: optional sign then decimal digits, error otherwise. -/
def goAtoi (s : List Char) : Option Int :=
  match s with
  | '+' :: rest => (digitsToNat rest).map Int.ofNat
  | '-' :: rest => (digitsToNat rest).map (fun n => -(n : Int))
  | _ => (digitsToNat s).map Int.ofNat

/-- `strings.TrimSuffix(s, suffix)`. -/
def trimSuffixGo (s : List Char) (suffix : List Char) : List Char :=
  if suffix.isSuffixOf s then s.take (s.length - suffix.length) else s

/-- `extractNumber` (`VideoStreamer`, file-sequence adapter): split the
filename on `-`, take the SECOND segment, trim a `.h264` suffix, parse it as
an integer; 0 on any failure. -/
def extractNumber (filename : List Char) : Int :=
  let parts := filename.splitOn '-'
  if parts.length < 2 then 0
  else match goAtoi (trimSuffixGo (parts.getD 1 []) ".h264".toList) with
    | some num => num
    | none => 0

/-- The claim's reading of the sort key for C8: the integer SUFFIX of the
filename, i.e. the segment after the last `-`, with `.h264` trimmed; 0 when
missing or non-numeric. -/
def suffixNumber (filename : List Char) : Int :=
  let parts := filename.splitOn '-'
  if parts.length < 2 then 0
  else match goAtoi (trimSuffixGo (parts.getLastD []) ".h264".toList) with
    | some num => num
    | none => 0

/-- Ordered insertion by `extractNumber` (the comparison of the
`sort.Slice` call in `LoadH264Files`). -/
def insertByNum (f : List Char) : List (List Char) → List (List Char)
  | [] => [f]
  | g :: gs =>
    if extractNumber f ≤ extractNumber g then f :: g :: gs
    else g :: insertByNum f gs

/-- The numeric sort performed by `LoadH264Files` on the globbed file list
(`sort.Slice(files, extractNumber i < extractNumber j)`); the algorithm is
modelled as insertion sort, which realizes the same ordering contract. -/
def sortByNum : List (List Char) → List (List Char)
  | [] => []
  | f :: fs => insertByNum f (sortByNum fs)

/-- `LoadH264Files` restricted to its pure content: the enumeration result
(the globbed `*.h264` file list) is the input, and the loaded frame-file
list is that list numerically sorted. -/
def LoadH264Files (files : List (List Char)) : List (List Char) := sortByNum files

/-- Does a NAL body contain the 3-byte pattern `00 00 01` anywhere?  (The
out-of-range default 2 can never satisfy the final `== 1` or the `== 0`
tests, so no bound check is needed on `i+2`.) -/
def has001 (n : List Nat) : Bool :=
  (List.range n.length).any (fun i =>
    n.getD i 2 == 0 && n.getD (i+1) 2 == 0 && n.getD (i+2) 2 == 1)

/-- Side condition of the amended C3: a body survives the Annex-B round trip
when it is nonempty, contains no `00 00 01` pattern and does not end in a
zero byte (otherwise reassembled start codes merge with body bytes). -/
def goodBody (n : List Nat) : Bool :=
  !n.isEmpty && !has001 n && !(n.getLastD 1 == 0)

/-- Invariant of the camera producer state: cached SPS/PPS really carry NAL
types 7/8, and once `waitingForConfig` has been cleared both caches are
populated (they are only ever set, never cleared). -/
def camInv (s : CamState) : Prop :=
  (∀ sp, s.sps = some sp → nalType sp = 7) ∧
  (∀ pp, s.pps = some pp → nalType pp = 8) ∧
  (s.waiting = false → s.sps.isSome ∧ s.pps.isSome)

/-- Invariant of the `H264Parser` caches: nonempty caches carry types 7/8. -/
def procInv (st : ParserState) : Prop :=
  (0 < st.sps.length → nalType st.sps = 7) ∧
  (0 < st.pps.length → nalType st.pps = 8)

/-! ## Helper lemmas -/

theorem emuGo_eq_insertByOutput : ∀ (l : List Nat) (zc q2 q1 : Nat),
    zc = (if q1 = 0 then if q2 = 0 then 2 else 1 else 0) →
    emuGo zc l = insertByOutput q2 q1 l := by
  intro l
  induction l with
  | nil => intro zc q2 q1 _; rfl
  | cons b rest ih =>
    intro zc q2 q1 hzc
    by_cases hq1 : q1 = 0
    · by_cases hq2 : q2 = 0
      · have hz : zc = 2 := by rw [hzc]; simp [hq1, hq2]
        by_cases hb : b ≤ 3
        · have hL : (zc = 2 ∧ b ≤ 3) := ⟨hz, hb⟩
          have hR : (q2 = 0 ∧ q1 = 0 ∧ b ≤ 3) := ⟨hq2, hq1, hb⟩
          simp only [emuGo, insertByOutput, if_pos hL, if_pos hR]
          refine congrArg (fun x => 3 :: b :: x) (ih _ 3 b ?_)
          by_cases hb0 : b = 0 <;> simp [hb0]
        · have hL : ¬ (zc = 2 ∧ b ≤ 3) := fun hc => hb hc.2
          have hR : ¬ (q2 = 0 ∧ q1 = 0 ∧ b ≤ 3) := fun hc => hb hc.2.2
          simp only [emuGo, insertByOutput, if_neg hL, if_neg hR]
          have hb0 : ¬ b = 0 := by omega
          refine congrArg (fun x => b :: x) (ih _ q1 b ?_)
          simp [hb0, hq1, hq2]
      · have hz : zc = 1 := by rw [hzc]; simp [hq1, hq2]
        have hL : ¬ (zc = 2 ∧ b ≤ 3) := by omega
        have hR : ¬ (q2 = 0 ∧ q1 = 0 ∧ b ≤ 3) := fun hc => hq2 hc.1
        simp only [emuGo, insertByOutput, if_neg hL, if_neg hR]
        refine congrArg (fun x => b :: x) (ih _ q1 b ?_)
        by_cases hb0 : b = 0 <;> simp [hb0, hz, hq1, hq2]
    · have hz : zc = 0 := by rw [hzc]; simp [hq1]
      have hL : ¬ (zc = 2 ∧ b ≤ 3) := by omega
      have hR : ¬ (q2 = 0 ∧ q1 = 0 ∧ b ≤ 3) := fun hc => hq1 hc.2.1
      simp only [emuGo, insertByOutput, if_neg hL, if_neg hR]
      refine congrArg (fun x => b :: x) (ih _ q1 b ?_)
      by_cases hb0 : b = 0 <;> simp [hb0, hz, hq1]

theorem remGo_emuGo (l : List Nat) : ∀ zc, remGo zc (emuGo zc l) = l := by
  induction l with
  | nil => intro zc; rfl
  | cons b rest ih =>
    intro zc
    by_cases h : zc = 2 ∧ b ≤ 3
    · simp only [emuGo, h, if_pos, ite_true]
      have h3 : zc = 2 ∧ (3 : Nat) = 3 := ⟨h.1, rfl⟩
      simp only [remGo, h3, if_pos, ite_true]
      have h0 : ¬ ((0 : Nat) = 2 ∧ b = 3) := by omega
      simp only [h0, if_neg, ite_false]
      exact congrArg (fun x => b :: x) (ih _)
    · simp only [emuGo, h, if_neg, ite_false]
      have h' : ¬ (zc = 2 ∧ b = 3) := by
        intro hc; exact h ⟨hc.1, by omega⟩
      simp only [remGo, h', if_neg, ite_false]
      exact congrArg (fun x => b :: x) (ih _)

theorem find?_cons_eq (p : α → Bool) (a : α) (l : List α) :
    (a :: l).find? p = if p a then some a else l.find? p := by
  cases hpa : p a <;> simp [List.find?_cons, hpa]

theorem regGet_cons (e : String × Nat) (rest : Registry) (pid : String) :
    regGet (e :: rest) pid = if e.1 == pid then some e.2 else regGet rest pid := by
  rw [regGet, find?_cons_eq]
  by_cases he : (e.1 == pid) = true <;> simp [he, regGet]

theorem regGet_map_set : ∀ (reg : Registry) (pid : String) (pc : Nat),
    (regGet reg pid).isSome →
    regGet (reg.map (fun e => if e.1 == pid then (pid, pc) else e)) pid = some pc := by
  intro reg pid pc h
  induction reg with
  | nil => simp [regGet] at h
  | cons e rest ih =>
    by_cases he : (e.1 == pid) = true
    · simp only [List.map_cons, he, if_pos, ite_true]
      rw [regGet_cons]
      simp
    · rw [List.map_cons, if_neg he, regGet_cons, if_neg he]
      rw [regGet_cons, if_neg he] at h
      exact ih h

theorem regGet_regSet_self (reg : Registry) (pid : String) (pc : Nat)
    (h : (regGet reg pid).isSome) : regGet (regSet reg pid pc) pid = some pc := by
  have hfind : (List.find? (fun e => e.1 == pid) reg).isSome := by
    rw [regGet] at h
    cases hf : List.find? (fun e => e.1 == pid) reg with
    | none => rw [hf] at h; simp at h
    | some a => rfl
  rw [regSet, if_pos hfind]
  exact regGet_map_set reg pid pc h

/-- C6: accepting a new offer for a peerId that already has a session closes
exactly that one old session, stores the fresh session under the same key,
and leaves the registry size unchanged. -/
theorem c6_process_offer_replaces :
    ∀ (reg : Registry) (peerID : String) (oldPC newPC : Nat),
    regGet reg peerID = some oldPC →
    (ProcessOffer reg peerID newPC).2 = [oldPC] ∧
    ((ProcessOffer reg peerID newPC).1).length = reg.length ∧
    regGet (ProcessOffer reg peerID newPC).1 peerID = some newPC := by
  intro reg pid oldPC newPC h
  have hs : (List.find? (fun e => e.1 == pid) reg).isSome := by
    rcases Option.map_eq_some'.mp (show (List.find? (fun e => e.1 == pid) reg).map
      (·.2) = some oldPC from h) with ⟨a, ha, _⟩
    simp [ha]
  refine ⟨by simp [ProcessOffer, h], ?_, ?_⟩
  · simp [ProcessOffer, regSet, hs]
  · have := regGet_regSet_self reg pid newPC (by rw [regGet] at h ⊢; rw [h]; rfl)
    simpa [ProcessOffer] using this

/-- Witness for C6 at a concrete registry. -/
theorem c6_witness :
    (ProcessOffer [("p", 1), ("q", 2)] "p" 7).2 = [1] ∧
    (ProcessOffer [("p", 1), ("q", 2)] "p" 7).1.length = 2 ∧
    regGet (ProcessOffer [("p", 1), ("q", 2)] "p" 7).1 "p" = some 7 := by
  have h := c6_process_offer_replaces [("p", 1), ("q", 2)] "p" 1 7 rfl
  exact ⟨h.1, h.2.1.trans rfl, h.2.2⟩

/-- C7: `RMCSInit` returns 0 on success, 1 when already running (leaving the
instance untouched, hence idempotent), -1 when WebRTC initialization fails
and -2 when the MQTT connect fails. -/
theorem c7_rmcs_init_codes :
    (∀ w m, rmcsInit (some true) w m = (1, some true)) ∧
    (∀ inst m, inst ≠ some true → rmcsInit inst false m = (-1, inst)) ∧
    (∀ inst, inst ≠ some true → rmcsInit inst true false = (-2, inst)) ∧
    (∀ inst, inst ≠ some true → rmcsInit inst true true = (0, some true)) :=
  ⟨fun w m => by simp [rmcsInit],
   fun inst m h => by simp [rmcsInit, h],
   fun inst h => by simp [rmcsInit, h],
   fun inst h => by simp [rmcsInit, h]⟩

/-- Witness for C7 at concrete instance states. -/
theorem c7_witness :
    rmcsInit (some true) true true = (1, some true) ∧
    rmcsInit none false true = (-1, none) ∧
    rmcsInit none true false = (-2, none) ∧
    rmcsInit none true true = (0, some true) :=
  ⟨c7_rmcs_init_codes.1 true true,
   c7_rmcs_init_codes.2.1 none true (by decide),
   c7_rmcs_init_codes.2.2.1 none (by decide),
   c7_rmcs_init_codes.2.2.2 none (by decide)⟩

/-- C9: delivering remote ICE candidates for an unknown peerId leaves the
registry (hence every session's received candidates) unchanged, and each
underlying `AddICECandidate` call yields only the logged error. -/
theorem c9_unknown_peer_candidates :
    ∀ (reg : CandRegistry) (peerID : String) (cands : List ICECandidateMessage),
    candGet reg peerID = none →
    handleRobotCandidates reg peerID cands = reg ∧
    (∀ c, AddICECandidate reg peerID c =
      .error ("no peer connection for " ++ peerID)) := by
  intro reg pid cands h
  have hadd : ∀ c, AddICECandidate reg pid c =
      .error ("no peer connection for " ++ pid) := by
    intro c; simp [AddICECandidate, h]
  refine ⟨?_, hadd⟩
  induction cands with
  | nil => rfl
  | cons c cs ih =>
    simp only [handleRobotCandidates, List.foldl_cons, hadd c] at ih ⊢
    exact ih

/-- Witness for C9 at a concrete registry and candidate list. -/
theorem c9_witness :
    handleRobotCandidates [("a", [])] "p" [⟨"cnd", "0", 0⟩] = [("a", [])] :=
  (c9_unknown_peer_candidates [("a", [])] "p" [⟨"cnd", "0", 0⟩] rfl).1

/-- C10: for a camera number outside the static table (n < 1 or n > 7),
`SwitchCamera` fails before any file loading is attempted: the result is an
error with the streamer state returned unchanged, for every possible loading
behavior. -/
theorem c10_switch_camera_invalid :
    ∀ (load : Streamer → String → Except String Streamer × Streamer)
      (st : Streamer) (n : Int),
    n < 1 ∨ 7 < n →
    cameraMap n = none ∧
    SwitchCamera load st n =
      (.error s!"invalid camera number: {n} (must be 1-7)", st) := by
  intro load st n hn
  have hmap : cameraMap n = none := by
    simp only [cameraMap]
    split_ifs with h1 h2 h3 h4 h5 h6 h7 <;> first | omega | rfl
  exact ⟨hmap, by simp [SwitchCamera, hmap]⟩

/-- Witness for C10 at n = 8. -/
theorem c10_witness :
    SwitchCamera (fun st _ => (Except.ok st, st)) ⟨[], false⟩ 8 =
      (.error "invalid camera number: 8 (must be 1-7)", (⟨[], false⟩ : Streamer)) := by
  rw [(c10_switch_camera_invalid (fun st _ => (Except.ok st, st)) ⟨[], false⟩ 8
    (Or.inr (by norm_num))).2]
  rfl

/-- C5 counterexample: on input `00 00 00 00` the encoder inserts only one
`0x03` (after the insertion the zero counter restarts), not one before every
input position preceded by two zero bytes as the claim states. -/
theorem c5_counterexample :
    addEmulationPrevention [0, 0, 0, 0] ≠ claimEmulation [0, 0, 0, 0] := by
  decide

/-- C5 (amended): the encoder inserts a `0x03` exactly at each position where
the two immediately preceding bytes of the OUTPUT are both zero and the next
byte is at most 3, and is the identity elsewhere. -/
theorem c5_emulation_output_window :
    ∀ data, addEmulationPrevention data = outputWindowEmulation data := by
  intro data
  have h := emuGo_eq_insertByOutput data 0 1 1 (by norm_num)
  simpa [addEmulationPrevention, outputWindowEmulation] using h

theorem mem_insertByNum : ∀ (l : List (List Char)) (f x : List Char),
    x ∈ insertByNum f l → x = f ∨ x ∈ l := by
  intro l
  induction l with
  | nil => intro f x hx; simp [insertByNum] at hx; exact Or.inl hx
  | cons g gs ih =>
    intro f x hx
    by_cases hle : extractNumber f ≤ extractNumber g
    · rw [insertByNum, if_pos hle] at hx
      rcases List.mem_cons.mp hx with h | h
      · exact Or.inl h
      · exact Or.inr h
    · rw [insertByNum, if_neg hle] at hx
      rcases List.mem_cons.mp hx with h | h
      · exact Or.inr (List.mem_cons.mpr (Or.inl h))
      · rcases ih f x h with h' | h'
        · exact Or.inl h'
        · exact Or.inr (List.mem_cons.mpr (Or.inr h'))

theorem pairwise_insertByNum : ∀ (l : List (List Char)) (f : List Char),
    l.Pairwise (fun a b => extractNumber a ≤ extractNumber b) →
    (insertByNum f l).Pairwise (fun a b => extractNumber a ≤ extractNumber b) := by
  intro l
  induction l with
  | nil => intro f _; simp [insertByNum]
  | cons g gs ih =>
    intro f hp
    rcases List.pairwise_cons.mp hp with ⟨hg, hgs⟩
    by_cases hle : extractNumber f ≤ extractNumber g
    · rw [insertByNum, if_pos hle]
      refine List.pairwise_cons.mpr ⟨?_, hp⟩
      intro x hx
      rcases List.mem_cons.mp hx with h | h
      · exact h ▸ hle
      · exact le_trans hle (hg x h)
    · rw [insertByNum, if_neg hle]
      refine List.pairwise_cons.mpr ⟨?_, ih f hgs⟩
      intro x hx
      rcases mem_insertByNum gs f x hx with h | h
      · subst h; omega
      · exact hg x h

/-- C8 (amended): the file-sequence adapter orders the enumerated files by
`extractNumber`, which parses the SECOND hyphen-separated segment of the
filename (with a `.h264` suffix trimmed) and falls back to 0; for single
hyphen names `prefix-N.h264` this is the numeric suffix N, and for every
pair of files the one with the smaller key comes first. -/
theorem c8_sorted_by_extractNumber :
    ∀ files, (LoadH264Files files).Pairwise
      (fun a b => extractNumber a ≤ extractNumber b) := by
  intro files
  induction files with
  | nil => simp [LoadH264Files, sortByNum]
  | cons f fs ih =>
    have := pairwise_insertByNum (sortByNum fs) f
      (by simpa [LoadH264Files] using ih)
    simpa [LoadH264Files, sortByNum] using this

/-- C8 counterexample: with files `a-b-7.h264` (integer suffix 7, but
`extractNumber` reads the second segment `b` as 0) and `x-3.h264` (suffix 3),
the loaded order violates suffix ordering: the file with the larger suffix
comes first. -/
theorem c8_counterexample :
    ¬ (LoadH264Files ["a-b-7.h264".toList, "x-3.h264".toList]).Pairwise
      (fun a b => suffixNumber a ≤ suffixNumber b) := by decide

theorem readBE_putBE (t : Nat) (ht : t < 2^64) :
    readUint64BE (putUint64BE t) = t := by
  simp only [readUint64BE, putUint64BE, List.foldl, Nat.shiftRight_eq_div_pow]
  norm_num
  omega

theorem createSEI_eq (t : Nat) :
    createSimpleTimestampSEI t = 6 :: 5 :: 8 :: (emuGo 0 (putUint64BE t) ++ [128]) := by
  simp [createSimpleTimestampSEI, addEmulationPrevention, emuGo]

/-- C4: the SEI NAL body built from a 64-bit microsecond timestamp starts
with 0x06, ends with 0x80, carries payloadType 0x05 and payloadSize 0x08,
and decoding its emulation-prevented payload recovers the timestamp as an
8-byte big-endian integer. -/
theorem c4_sei_wellformed :
    ∀ t, t < 2^64 →
    (createSimpleTimestampSEI t).headD 0 = 6 ∧
    (createSimpleTimestampSEI t).getLast? = some 128 ∧
    (createSimpleTimestampSEI t).getD 1 0 = 5 ∧
    (createSimpleTimestampSEI t).getD 2 0 = 8 ∧
    removeEmulationPrevention (((createSimpleTimestampSEI t).drop 1).dropLast) =
      [5, 8] ++ putUint64BE t ∧
    readUint64BE ((removeEmulationPrevention
      (((createSimpleTimestampSEI t).drop 1).dropLast)).drop 2) = t := by
  intro t ht
  have h1 : ((createSimpleTimestampSEI t).drop 1).dropLast =
      addEmulationPrevention ([5, 8] ++ putUint64BE t) := by
    show ((([6] ++ (addEmulationPrevention ([5, 8] ++ putUint64BE t) ++ [128])).drop 1)).dropLast = _
    rw [List.singleton_append, List.drop_succ_cons, List.drop_zero, List.dropLast_concat]
  have hdecode : removeEmulationPrevention
      (((createSimpleTimestampSEI t).drop 1).dropLast) = [5, 8] ++ putUint64BE t := by
    rw [h1, removeEmulationPrevention, addEmulationPrevention]
    exact remGo_emuGo _ 0
  refine ⟨?_, ?_, ?_, ?_, hdecode, ?_⟩
  · rw [createSEI_eq]; rfl
  · rw [createSEI_eq]
    have : (6 : Nat) :: 5 :: 8 :: (emuGo 0 (putUint64BE t) ++ [128]) =
        (6 :: 5 :: 8 :: emuGo 0 (putUint64BE t)) ++ [128] := by simp
    rw [this, List.getLast?_concat]
  · rw [createSEI_eq]; rfl
  · rw [createSEI_eq]; rfl
  · rw [hdecode]
    simpa using readBE_putBE t ht

/-- Witness for C4 at a concrete timestamp. -/
theorem c4_witness :
    (createSimpleTimestampSEI 123456789).headD 0 = 6 ∧
    (createSimpleTimestampSEI 123456789).getLast? = some 128 ∧
    (createSimpleTimestampSEI 123456789).getD 1 0 = 5 ∧
    (createSimpleTimestampSEI 123456789).getD 2 0 = 8 ∧
    removeEmulationPrevention (((createSimpleTimestampSEI 123456789).drop 1).dropLast) =
      [5, 8] ++ putUint64BE 123456789 ∧
    readUint64BE ((removeEmulationPrevention
      (((createSimpleTimestampSEI 123456789).drop 1).dropLast)).drop 2) = 123456789 :=
  c4_sei_wellformed 123456789 (by norm_num)

/-- C1 counterexample: on the body sequence slice, SPS, PPS, IDR (which
contains at least one SPS, PPS and IDR), the `ProcessNALUnits` producer path
emits the non-config type-1 slice first, before any SPS or PPS. -/
theorem c1_counterexample :
    (∃ n ∈ ([[65], [103], [104], [101]] : List (List Nat)), nalType n = 7) ∧
    (∃ n ∈ ([[65], [103], [104], [101]] : List (List Nat)), nalType n = 8) ∧
    (∃ n ∈ ([[65], [103], [104], [101]] : List (List Nat)), nalType n = 5) ∧
    configBeforeSliceB (ProcessNALUnits [[65], [103], [104], [101]]) = false := by
  decide

/-- C3 counterexample: the length-prefixed buffer `00 00 00 04 00 00 01 09`
splits to the single body `00 00 01 09`; its Annex-B reassembly re-splits to
the body `09` instead, because the body contains a start-code pattern. -/
theorem c3_counterexample :
    FindNALUnits (ConvertToAnnexB (FindNALUnits [0, 0, 0, 4, 0, 0, 1, 9])) ≠
      FindNALUnits [0, 0, 0, 4, 0, 0, 1, 9] := by decide

theorem camStep_nil (s : CamState) (nal : List Nat) (hn : nal.length = 0) :
    camStep s nal = (s, []) := by
  simp [camStep, hn]

theorem camStep_sps_w (s : CamState) (nal : List Nat) (h7 : nalType nal = 7)
    (hn : ¬ nal.length = 0) (hw : s.waiting = true) :
    camStep s nal = ({ s with sps := some nal }, []) := by
  simp [camStep, h7, hn, hw]

theorem camStep_sps_r (s : CamState) (nal : List Nat) (h7 : nalType nal = 7)
    (hn : ¬ nal.length = 0) (hw : s.waiting = false) :
    camStep s nal = ({ s with sps := some nal }, [Sample.noSEI nal]) := by
  simp [camStep, h7, hn, hw]

theorem camStep_pps_flip (s : CamState) (nal sp : List Nat) (h8 : nalType nal = 8)
    (hn : ¬ nal.length = 0) (hw : s.waiting = true) (hsp : s.sps = some sp) :
    camStep s nal = ({ s with pps := some nal, waiting := false },
      [Sample.noSEI sp, Sample.noSEI nal, Sample.noSEI nal]) := by
  simp [camStep, h8, hn, hw, hsp]

theorem camStep_pps_w (s : CamState) (nal : List Nat) (h8 : nalType nal = 8)
    (hn : ¬ nal.length = 0) (hw : s.waiting = true) (hsp : s.sps = none) :
    camStep s nal = ({ s with pps := some nal }, []) := by
  simp [camStep, h8, hn, hw, hsp]

theorem camStep_pps_r (s : CamState) (nal : List Nat) (h8 : nalType nal = 8)
    (hn : ¬ nal.length = 0) (hw : s.waiting = false) :
    camStep s nal = ({ s with pps := some nal }, [Sample.noSEI nal]) := by
  simp [camStep, h8, hn, hw]

theorem camStep_idr_w (s : CamState) (nal : List Nat) (h5 : nalType nal = 5)
    (hn : ¬ nal.length = 0) (hw : s.waiting = true) :
    camStep s nal = ({ s with lastIDR := some nal }, []) := by
  simp [camStep, h5, hn, hw]

theorem camStep_idr_r (s : CamState) (nal sp pp : List Nat) (h5 : nalType nal = 5)
    (hn : ¬ nal.length = 0) (hw : s.waiting = false) (hsp : s.sps = some sp)
    (hpp : s.pps = some pp) :
    camStep s nal = ({ s with lastIDR := some nal },
      [Sample.noSEI sp, Sample.noSEI pp, Sample.withSEI nal]) := by
  simp [camStep, h5, hn, hw, hsp, hpp]

theorem camStep_slice_w (s : CamState) (nal : List Nat) (h1 : nalType nal = 1)
    (hn : ¬ nal.length = 0) (hw : s.waiting = true) :
    camStep s nal = (s, []) := by
  simp [camStep, h1, hn, hw]

theorem camStep_slice_r (s : CamState) (nal : List Nat) (h1 : nalType nal = 1)
    (hn : ¬ nal.length = 0) (hw : s.waiting = false) :
    camStep s nal = (s, [Sample.withSEI nal]) := by
  simp [camStep, h1, hn, hw]

theorem camStep_other_w (s : CamState) (nal : List Nat) (h7 : ¬ nalType nal = 7)
    (h8 : ¬ nalType nal = 8) (h5 : ¬ nalType nal = 5)
    (hn : ¬ nal.length = 0) (hw : s.waiting = true) :
    camStep s nal = (s, []) := by
  simp [camStep, h7, h8, h5, hn, hw]

theorem camStep_other_r (s : CamState) (nal : List Nat) (h7 : ¬ nalType nal = 7)
    (h8 : ¬ nalType nal = 8) (h5 : ¬ nalType nal = 5) (h1 : ¬ nalType nal = 1)
    (hn : ¬ nal.length = 0) (hw : s.waiting = false) :
    camStep s nal = (s, [Sample.noSEI nal]) := by
  simp [camStep, h7, h8, h5, h1, hn, hw]

theorem camStep_camInv (s : CamState) (nal : List Nat) (h : camInv s) :
    camInv (camStep s nal).1 := by
  obtain ⟨h7c, h8c, hr⟩ := h
  by_cases hn : nal.length = 0
  · rw [camStep_nil s nal hn]; exact ⟨h7c, h8c, hr⟩
  by_cases h7 : nalType nal = 7
  · have hst : (camStep s nal).1 = { s with sps := some nal } := by
      by_cases hw : s.waiting = true
      · rw [camStep_sps_w s nal h7 hn hw]
      · rw [camStep_sps_r s nal h7 hn (by simpa using hw)]
    rw [hst]
    refine ⟨?_, h8c, ?_⟩
    · intro sp hsp
      injection hsp with hh
      rw [← hh]; exact h7
    · intro hwf
      exact ⟨rfl, (hr hwf).2⟩
  by_cases h8 : nalType nal = 8
  · have hst : (camStep s nal).1 = { s with pps := some nal } ∨
        ((camStep s nal).1 = { s with pps := some nal, waiting := false } ∧
          s.sps.isSome) := by
      by_cases hw : s.waiting = true
      · rcases Option.eq_none_or_eq_some s.sps with hsp | ⟨sp, hsp⟩
        · left; rw [camStep_pps_w s nal h8 hn hw hsp]
        · right
          rw [camStep_pps_flip s nal sp h8 hn hw hsp]
          exact ⟨rfl, by rw [hsp]; rfl⟩
      · left; rw [camStep_pps_r s nal h8 hn (by simpa using hw)]
    have hppgood : ∀ pp : List Nat, some nal = some pp → nalType pp = 8 := by
      intro pp hpp
      injection hpp with hh
      rw [← hh]; exact h8
    rcases hst with hst | ⟨hst, hsps⟩
    · rw [hst]
      refine ⟨h7c, hppgood, ?_⟩
      intro hwf
      exact ⟨(hr hwf).1, rfl⟩
    · rw [hst]
      exact ⟨h7c, hppgood, fun _ => ⟨hsps, rfl⟩⟩
  · have hst : (camStep s nal).1 = s ∨
        (camStep s nal).1 = { s with lastIDR := some nal } := by
      by_cases h5 : nalType nal = 5
      · right
        by_cases hw : s.waiting = true
        · rw [camStep_idr_w s nal h5 hn hw]
        · have hw' : s.waiting = false := by simpa using hw
          rcases Option.eq_none_or_eq_some s.sps with hsp | ⟨sp, hsp⟩
          · have : camStep s nal =
                ({ s with lastIDR := some nal },
                  (match s.pps with
                    | some pp => [Sample.noSEI pp] | none => []) ++
                  [Sample.withSEI nal]) := by
              simp [camStep, h5, hn, hw', hsp]
            rw [this]
          · rcases Option.eq_none_or_eq_some s.pps with hpp | ⟨pp, hpp⟩
            · have : camStep s nal =
                  ({ s with lastIDR := some nal },
                    [Sample.noSEI sp] ++ [Sample.withSEI nal]) := by
                simp [camStep, h5, hn, hw', hsp, hpp]
              rw [this]
            · rw [camStep_idr_r s nal sp pp h5 hn hw' hsp hpp]
      · by_cases h1 : nalType nal = 1
        · left
          by_cases hw : s.waiting = true
          · rw [camStep_slice_w s nal h1 hn hw]
          · rw [camStep_slice_r s nal h1 hn (by simpa using hw)]
        · left
          by_cases hw : s.waiting = true
          · rw [camStep_other_w s nal h7 h8 h5 hn hw]
          · rw [camStep_other_r s nal h7 h8 h5 h1 hn (by simpa using hw)]
    rcases hst with hst | hst <;> rw [hst]
    · exact ⟨h7c, h8c, hr⟩
    · exact ⟨h7c, h8c, hr⟩

theorem camStep_from_waiting (s : CamState) (nal : List Nat) (hw : s.waiting = true) :
    ((camStep s nal).1.waiting = true ∧ (camStep s nal).2 = []) ∨
    ((camStep s nal).1.waiting = false ∧ nalType nal = 8 ∧ ∃ sp, s.sps = some sp ∧
      (camStep s nal).2 = [Sample.noSEI sp, Sample.noSEI nal, Sample.noSEI nal]) := by
  by_cases hn : nal.length = 0
  · left; rw [camStep_nil s nal hn]; exact ⟨hw, rfl⟩
  by_cases h7 : nalType nal = 7
  · left; rw [camStep_sps_w s nal h7 hn hw]; exact ⟨hw, rfl⟩
  by_cases h8 : nalType nal = 8
  · rcases Option.eq_none_or_eq_some s.sps with hsp | ⟨sp, hsp⟩
    · left; rw [camStep_pps_w s nal h8 hn hw hsp]; exact ⟨hw, rfl⟩
    · right
      rw [camStep_pps_flip s nal sp h8 hn hw hsp]
      exact ⟨rfl, h8, sp, hsp, rfl⟩
  by_cases h5 : nalType nal = 5
  · left; rw [camStep_idr_w s nal h5 hn hw]; exact ⟨hw, rfl⟩
  by_cases h1 : nalType nal = 1
  · left; rw [camStep_slice_w s nal h1 hn hw]; exact ⟨hw, rfl⟩
  · left; rw [camStep_other_w s nal h7 h8 h5 hn hw]; exact ⟨hw, rfl⟩

theorem camRun_cons (s : CamState) (n : List Nat) (rest : List (List Nat)) :
    (camRun s (n :: rest)).2 = (camStep s n).2 ++ (camRun (camStep s n).1 rest).2 := by
  rcases hstep : camStep s n with ⟨s1, o1⟩
  rcases hrest : camRun s1 rest with ⟨s2, o2⟩
  simp [camRun, hstep, hrest]

theorem getElem?_append_left' {α : Type} (A B : List α) (i : Nat) (h : i < A.length) :
    (A ++ B)[i]? = A[i]? := by
  rw [List.getElem?_append]
  simp [h]

theorem camRun_config_first :
    ∀ (ns : List (List Nat)) (s : CamState), camInv s → s.waiting = true →
    ∀ (i : Nat) (x : Sample), ((camRun s ns).2)[i]? = some x →
    (x.typ = 1 ∨ x.typ = 5) →
    (∃ (j : Nat) (y : Sample), j < i ∧ ((camRun s ns).2)[j]? = some y ∧ y.typ = 7) ∧
    (∃ (k : Nat) (z : Sample), k < i ∧ ((camRun s ns).2)[k]? = some z ∧ z.typ = 8) := by
  intro ns
  induction ns with
  | nil =>
    intro s _ _ i x hx _
    simp [camRun] at hx
  | cons n rest ih =>
    intro s hinv hw i x hx hslice
    have hinv1 : camInv (camStep s n).1 := camStep_camInv s n hinv
    rw [camRun_cons] at hx ⊢
    rcases camStep_from_waiting s n hw with ⟨hw1, ho1⟩ | ⟨hw1, h8, sp, hsp, ho1⟩
    · rw [ho1] at hx ⊢
      rw [List.nil_append] at hx ⊢
      exact ih (camStep s n).1 hinv1 hw1 i x hx hslice
    · have h7sp : nalType sp = 7 := hinv.1 sp hsp
      rw [ho1] at hx ⊢
      by_cases hi : i < 3
      · exfalso
        rw [getElem?_append_left' _ _ _ (by simpa using hi)] at hx
        rcases i with _ | _ | _ | i
        · have hxx : Sample.noSEI sp = x := by simpa using hx
          rw [← hxx] at hslice
          simp [Sample.typ, h7sp] at hslice
        · have hxx : Sample.noSEI n = x := by simpa using hx
          rw [← hxx] at hslice
          simp [Sample.typ, h8] at hslice
        · have hxx : Sample.noSEI n = x := by simpa using hx
          rw [← hxx] at hslice
          simp [Sample.typ, h8] at hslice
        · omega
      · push_neg at hi
        refine ⟨⟨0, Sample.noSEI sp, by omega, ?_, by simpa [Sample.typ] using h7sp⟩,
          ⟨1, Sample.noSEI n, by omega, ?_, by simpa [Sample.typ] using h8⟩⟩
        · rw [getElem?_append_left' _ _ _ (by simp)]
          rfl
        · rw [getElem?_append_left' _ _ _ (by simp)]
          rfl

/-- C1 (amended): the camera producer `readH264Stream` never emits a slice
sample (NAL type 1 or 5) before both an SPS and a PPS sample have been
emitted; the `ProcessNALUnits` file path (see the counterexample) passes
slices through unconditionally and violates the claim as stated. -/
theorem c1_camera_config_before_slices :
    ∀ (ns : List (List Nat)),
    (∃ n ∈ ns, nalType n = 7) → (∃ n ∈ ns, nalType n = 8) →
    (∃ n ∈ ns, nalType n = 5) →
    ∀ (i : Nat) (x : Sample), (camEmit ns)[i]? = some x → (x.typ = 1 ∨ x.typ = 5) →
    (∃ (j : Nat) (y : Sample), j < i ∧ (camEmit ns)[j]? = some y ∧ y.typ = 7) ∧
    (∃ (k : Nat) (z : Sample), k < i ∧ (camEmit ns)[k]? = some z ∧ z.typ = 8) := by
  intro ns _ _ _ i x hx hs
  have hinv : camInv camInit :=
    ⟨fun sp h => by simp [camInit] at h, fun pp h => by simp [camInit] at h,
     fun h => by simp [camInit] at h⟩
  exact camRun_config_first ns camInit hinv rfl i x hx hs

/-- Witness for C1 at the sequence SPS, PPS, IDR: the IDR sample sits at
index 5 of the emission, after SPS and PPS samples. -/
theorem c1_witness :
    (∃ (j : Nat) (y : Sample), j < 5 ∧
      (camEmit [[103], [104], [101]])[j]? = some y ∧ y.typ = 7) ∧
    (∃ (k : Nat) (z : Sample), k < 5 ∧
      (camEmit [[103], [104], [101]])[k]? = some z ∧ z.typ = 8) :=
  c1_camera_config_before_slices [[103], [104], [101]]
    (by decide) (by decide) (by decide) 5 (Sample.withSEI [101]) (by decide) (by decide)

theorem getElem?_append_right' {α : Type} (A B : List α) (i j : Nat)
    (h : A.length ≤ i) (hj : i - A.length = j) : (A ++ B)[i]? = B[j]? := by
  rw [List.getElem?_append_right h, hj]

theorem camStep_out_shape (s : CamState) (nal : List Nat) (h : camInv s) :
    (camStep s nal).2 = [] ∨
    (∃ u, (camStep s nal).2 = [Sample.noSEI u]) ∨
    (∃ a b, (camStep s nal).2 = [Sample.noSEI a, Sample.noSEI b, Sample.noSEI b] ∧
      nalType a = 7 ∧ nalType b = 8) ∨
    (∃ u, (camStep s nal).2 = [Sample.withSEI u] ∧ nalType u = 1) ∨
    (∃ sp pp u, (camStep s nal).2 =
      [Sample.noSEI sp, Sample.noSEI pp, Sample.withSEI u] ∧
      nalType sp = 7 ∧ nalType pp = 8 ∧ nalType u = 5) := by
  by_cases hn : nal.length = 0
  · left; rw [camStep_nil s nal hn]
  by_cases hw : s.waiting = true
  · rcases camStep_from_waiting s nal hw with ⟨_, ho⟩ | ⟨_, h8, sp, hsp, ho⟩
    · left; exact ho
    · right; right; left
      exact ⟨sp, nal, ho, h.1 sp hsp, h8⟩
  · have hw' : s.waiting = false := by simpa using hw
    obtain ⟨hsps, hpps⟩ := h.2.2 hw'
    rcases Option.isSome_iff_exists.mp hsps with ⟨sp, hsp⟩
    rcases Option.isSome_iff_exists.mp hpps with ⟨pp, hpp⟩
    by_cases h7 : nalType nal = 7
    · right; left
      exact ⟨nal, by rw [camStep_sps_r s nal h7 hn hw']⟩
    by_cases h8 : nalType nal = 8
    · right; left
      exact ⟨nal, by rw [camStep_pps_r s nal h8 hn hw']⟩
    by_cases h5 : nalType nal = 5
    · right; right; right; right
      exact ⟨sp, pp, nal, by rw [camStep_idr_r s nal sp pp h5 hn hw' hsp hpp],
        h.1 sp hsp, h.2.1 pp hpp, h5⟩
    by_cases h1 : nalType nal = 1
    · right; right; right; left
      exact ⟨nal, by rw [camStep_slice_r s nal h1 hn hw'], h1⟩
    · right; left
      exact ⟨nal, by rw [camStep_other_r s nal h7 h8 h5 h1 hn hw']⟩

theorem camRun_idr_context :
    ∀ (ns : List (List Nat)) (s : CamState), camInv s →
    ∀ (i : Nat) (nal : List Nat),
    ((camRun s ns).2)[i]? = some (Sample.withSEI nal) → nalType nal = 5 →
    2 ≤ i ∧ ∃ sp pp, ((camRun s ns).2)[i-2]? = some (Sample.noSEI sp) ∧
      nalType sp = 7 ∧
      ((camRun s ns).2)[i-1]? = some (Sample.noSEI pp) ∧ nalType pp = 8 := by
  intro ns
  induction ns with
  | nil => intro s _ i nal hx _; simp [camRun] at hx
  | cons n rest ih =>
    intro s hinv i nal hx h5
    have hinv1 : camInv (camStep s n).1 := camStep_camInv s n hinv
    rw [camRun_cons] at hx ⊢
    rcases camStep_out_shape s n hinv with ho | ⟨u, ho⟩ | ⟨a, b, ho, ha7, hb8⟩ |
      ⟨u, ho, hu1⟩ | ⟨sp, pp, u, ho, hsp7, hpp8, hu5⟩
    · rw [ho, List.nil_append] at hx ⊢
      exact ih _ hinv1 i nal hx h5
    · rw [ho] at hx ⊢
      rcases i with _ | i
      · rw [getElem?_append_left' _ _ _ (by simp)] at hx
        simp at hx
      · rw [getElem?_append_right' _ _ (i+1) i (by simp) (by simp)] at hx
        obtain ⟨h2i, sp, pp, hsp, h7, hpp, h8⟩ := ih _ hinv1 i nal hx h5
        refine ⟨by omega, sp, pp, ?_, h7, ?_, h8⟩
        · rw [getElem?_append_right' _ _ (i+1-2) (i-2) (by simp; try omega) (by simp; try omega)]
          exact hsp
        · rw [getElem?_append_right' _ _ (i+1-1) (i-1) (by simp; try omega) (by simp; try omega)]
          exact hpp
    · rw [ho] at hx ⊢
      rcases i with _ | _ | _ | i
      · rw [getElem?_append_left' _ _ _ (by simp)] at hx
        simp at hx
      · rw [getElem?_append_left' _ _ _ (by simp)] at hx
        simp at hx
      · rw [getElem?_append_left' _ _ _ (by simp)] at hx
        simp at hx
      · rw [getElem?_append_right' _ _ (i+3) i (by simp) (by simp)] at hx
        obtain ⟨h2i, sp, pp, hsp, h7, hpp, h8⟩ := ih _ hinv1 i nal hx h5
        refine ⟨by omega, sp, pp, ?_, h7, ?_, h8⟩
        · rw [getElem?_append_right' _ _ (i+3-2) (i-2) (by simp; try omega) (by simp; try omega)]
          exact hsp
        · rw [getElem?_append_right' _ _ (i+3-1) (i-1) (by simp; try omega) (by simp; try omega)]
          exact hpp
    · rw [ho] at hx ⊢
      rcases i with _ | i
      · rw [getElem?_append_left' _ _ _ (by simp)] at hx
        simp at hx
        rw [← hx] at h5
        omega
      · rw [getElem?_append_right' _ _ (i+1) i (by simp) (by simp)] at hx
        obtain ⟨h2i, sp, pp, hsp, h7, hpp, h8⟩ := ih _ hinv1 i nal hx h5
        refine ⟨by omega, sp, pp, ?_, h7, ?_, h8⟩
        · rw [getElem?_append_right' _ _ (i+1-2) (i-2) (by simp; try omega) (by simp; try omega)]
          exact hsp
        · rw [getElem?_append_right' _ _ (i+1-1) (i-1) (by simp; try omega) (by simp; try omega)]
          exact hpp
    · rw [ho] at hx ⊢
      rcases i with _ | _ | _ | i
      · rw [getElem?_append_left' _ _ _ (by simp)] at hx
        simp at hx
      · rw [getElem?_append_left' _ _ _ (by simp)] at hx
        simp at hx
      · refine ⟨by omega, sp, pp, ?_, hsp7, ?_, hpp8⟩
        · rw [getElem?_append_left' _ _ _ (by simp)]
          rfl
        · rw [getElem?_append_left' _ _ _ (by simp)]
          rfl
      · rw [getElem?_append_right' _ _ (i+3) i (by simp) (by simp)] at hx
        obtain ⟨h2i, sp', pp', hsp, h7, hpp, h8⟩ := ih _ hinv1 i nal hx h5
        refine ⟨by omega, sp', pp', ?_, h7, ?_, h8⟩
        · rw [getElem?_append_right' _ _ (i+3-2) (i-2) (by simp; try omega) (by simp; try omega)]
          exact hsp
        · rw [getElem?_append_right' _ _ (i+3-1) (i-1) (by simp; try omega) (by simp; try omega)]
          exact hpp

theorem processRun_cons (st : ParserState) (n : List Nat) (rest : List (List Nat)) :
    processRun st (n :: rest) =
      ((processRun (processStep st n).1 rest).1,
        (processStep st n).2 ++ (processRun (processStep st n).1 rest).2) := by
  rcases hstep : processStep st n with ⟨st1, o1⟩
  rcases hrest : processRun st1 rest with ⟨st2, o2⟩
  simp [processRun, hstep, hrest]

theorem processRun_append (st : ParserState) (xs ys : List (List Nat)) :
    (processRun st (xs ++ ys)).2 =
      (processRun st xs).2 ++ (processRun (processRun st xs).1 ys).2 := by
  induction xs generalizing st with
  | nil => simp [processRun]
  | cons x xs ih =>
    rw [List.cons_append, processRun_cons, processRun_cons]
    simp [ih, List.append_assoc]

theorem processStep_idr (st : ParserState) (nal : List Nat)
    (hn : ¬ nal.length = 0) (h5 : nalType nal = 5)
    (hsps : 0 < st.sps.length) (hpps : 0 < st.pps.length) :
    processStep st nal = (st, [st.sps, st.pps, nal]) := by
  simp [processStep, hn, h5, hsps, hpps]

theorem processStep_procInv (st : ParserState) (nal : List Nat) (h : procInv st) :
    procInv (processStep st nal).1 := by
  by_cases hn : nal.length = 0
  · simpa [processStep, hn] using h
  by_cases h7 : nalType nal = 7
  · have hst : processStep st nal = ({ st with sps := nal }, [nal]) := by
      simp [processStep, hn, h7]
    rw [hst]
    exact ⟨fun _ => h7, h.2⟩
  by_cases h8 : nalType nal = 8
  · have hst : processStep st nal = ({ st with pps := nal }, [nal]) := by
      simp [processStep, hn, h7, h8]
    rw [hst]
    exact ⟨h.1, fun _ => h8⟩
  · have hst : (processStep st nal).1 = st := by
      by_cases h51 : nalType nal = 5 ∨ nalType nal = 1
      · simp [processStep, hn, h7, h8, h51]
      · simp [processStep, hn, h7, h8, h51]
    rw [hst]
    exact h

theorem processRun_procInv : ∀ (ns : List (List Nat)) (st : ParserState),
    procInv st → procInv (processRun st ns).1 := by
  intro ns
  induction ns with
  | nil => intro st h; simpa [processRun] using h
  | cons n rest ih =>
    intro st h
    rw [processRun_cons]
    exact ih _ (processStep_procInv st n h)

/-- C2: when an IDR is processed after SPS and PPS have been observed, the
cached SPS and then the cached PPS are emitted immediately before the IDR
sample, in that order.  Part 1 is the exact camera step; part 2 is the
positional statement over the whole camera emission; part 3 is the same fact
for the `ProcessNALUnits` producer path, locating the cached SPS, PPS and the
IDR contiguously in the output. -/
theorem c2_idr_preceded_by_sps_pps :
    (∀ (s : CamState) (nal sp pp : List Nat), s.waiting = false →
      s.sps = some sp → s.pps = some pp → ¬ nal.length = 0 → nalType nal = 5 →
      camStep s nal = ({ s with lastIDR := some nal },
        [Sample.noSEI sp, Sample.noSEI pp, Sample.withSEI nal])) ∧
    (∀ (ns : List (List Nat)) (i : Nat) (nal : List Nat),
      (camEmit ns)[i]? = some (Sample.withSEI nal) → nalType nal = 5 →
      2 ≤ i ∧ ∃ sp pp, (camEmit ns)[i-2]? = some (Sample.noSEI sp) ∧
        nalType sp = 7 ∧
        (camEmit ns)[i-1]? = some (Sample.noSEI pp) ∧ nalType pp = 8) ∧
    (∀ (pre : List (List Nat)) (nal : List Nat) (post : List (List Nat)),
      ¬ nal.length = 0 → nalType nal = 5 →
      0 < (processRun ⟨[], []⟩ pre).1.sps.length →
      0 < (processRun ⟨[], []⟩ pre).1.pps.length →
      ProcessNALUnits (pre ++ nal :: post) =
        ProcessNALUnits pre ++
          [(processRun ⟨[], []⟩ pre).1.sps, (processRun ⟨[], []⟩ pre).1.pps, nal] ++
          (processRun (processRun ⟨[], []⟩ pre).1 post).2 ∧
      nalType (processRun ⟨[], []⟩ pre).1.sps = 7 ∧
      nalType (processRun ⟨[], []⟩ pre).1.pps = 8) := by
  refine ⟨?_, ?_, ?_⟩
  · intro s nal sp pp hw hsp hpp hn h5
    exact camStep_idr_r s nal sp pp h5 hn hw hsp hpp
  · intro ns i nal hx h5
    have hinv : camInv camInit :=
      ⟨fun sp h => by simp [camInit] at h, fun pp h => by simp [camInit] at h,
       fun h => by simp [camInit] at h⟩
    exact camRun_idr_context ns camInit hinv i nal hx h5
  · intro pre nal post hn h5 hsps hpps
    have hinv : procInv (processRun ⟨[], []⟩ pre).1 :=
      processRun_procInv pre ⟨[], []⟩ ⟨by simp, by simp⟩
    refine ⟨?_, hinv.1 hsps, hinv.2 hpps⟩
    show (processRun ⟨[], []⟩ (pre ++ nal :: post)).2 = _
    rw [processRun_append, processRun_cons,
      processStep_idr _ _ hn h5 hsps hpps]
    simp [ProcessNALUnits, List.append_assoc]

/-- Witness for C2: a concrete IDR step from a configured state. -/
theorem c2_witness :
    camStep ⟨some [103], some [104], none, false⟩ [101] =
      (⟨some [103], some [104], some [101], false⟩,
        [Sample.noSEI [103], Sample.noSEI [104], Sample.withSEI [101]]) :=
  c2_idr_preceded_by_sps_pps.1 ⟨some [103], some [104], none, false⟩ [101] [103] [104]
    rfl rfl rfl (by decide) (by decide)

theorem byteAt_drop (d : List Nat) (i k : Nat) :
    byteAt (d.drop i) k = byteAt d (i + k) := by
  simp [byteAt, List.getD_eq_getElem?_getD, List.getElem?_drop]

theorem bytes_from_drop (d : List Nat) (i : Nat) (l : List Nat)
    (hd : d.drop i = l) (k : Nat) : byteAt d (i + k) = byteAt l k := by
  rw [← hd, byteAt_drop]

theorem getD_oob (n : List Nat) (i : Nat) (h : n.length ≤ i) : n.getD i 2 = 2 := by
  rw [List.getD_eq_getElem?_getD, List.getElem?_eq_none h]
  rfl

theorem has001_false (n : List Nat) (h : has001 n = false) :
    ∀ i, ¬ (n.getD i 2 = 0 ∧ n.getD (i+1) 2 = 0 ∧ n.getD (i+2) 2 = 1) := by
  intro i hc
  have hi : i < n.length := by
    by_contra hge
    push_neg at hge
    have h2 := getD_oob n i hge
    omega
  rw [has001] at h
  have hall : ∀ x ∈ List.range n.length,
      ¬ ((n.getD x 2 == 0 && n.getD (x+1) 2 == 0 && n.getD (x+2) 2 == 1) = true) := by
    simpa [List.any_eq_false] using h
  have := hall i (List.mem_range.mpr hi)
  simp only [Bool.and_eq_true, beq_iff_eq] at this
  exact this ⟨⟨hc.1, hc.2.1⟩, hc.2.2⟩

theorem goodBody_spec (n : List Nat) (h : goodBody n = true) :
    n ≠ [] ∧ has001 n = false ∧ ¬ (n.getLastD 1 = 0) := by
  rw [goodBody] at h
  simp only [Bool.and_eq_true, Bool.not_eq_true', beq_iff_eq] at h
  refine ⟨?_, h.1.2, ?_⟩
  · intro hnil
    rw [hnil] at h
    simp at h
  · intro hlast
    have h2 := h.2
    rw [hlast] at h2
    simp at h2

theorem getLastD_eq_getD (n : List Nat) (hn : n ≠ []) :
    n.getLastD 1 = n.getD (n.length - 1) 2 := by
  have hlt : n.length - 1 < n.length := by
    cases n with
    | nil => exact absurd rfl hn
    | cons a l => simp
  have hx : n[n.length - 1]? = some n[n.length - 1] := List.getElem?_eq_getElem hlt
  rw [List.getLastD_eq_getLast?, List.getLast?_eq_getElem?, hx,
    List.getD_eq_getElem?_getD, hx]
  rfl

theorem findNSC_none (d : List Nat) :
    ∀ (fuel i : Nat), (∀ j, i ≤ j → j + 3 < d.length →
      isStartCode4 d j = false ∧ isStartCode3 d j = false) →
    findNSC d fuel i = none := by
  intro fuel
  induction fuel with
  | zero => intro i _; rfl
  | succ f ih =>
    intro i h
    rw [findNSC]
    by_cases hg : i + 3 < d.length
    · rw [if_pos hg]
      obtain ⟨h4, h3⟩ := h i (le_refl i) hg
      rw [h4, h3]
      simp only [Bool.or_self, Bool.false_eq_true, if_false]
      exact ih (i+1) (fun j hj hjl => h j (by omega) hjl)
    · rw [if_neg hg]

theorem findNSC_some (d : List Nat) :
    ∀ (fuel i p : Nat), i ≤ p → p + 3 < d.length →
    (isStartCode4 d p = true ∨ isStartCode3 d p = true) →
    (∀ j, i ≤ j → j < p → isStartCode4 d j = false ∧ isStartCode3 d j = false) →
    d.length ≤ fuel + i →
    findNSC d fuel i = some p := by
  intro fuel
  induction fuel with
  | zero => intro i p hip hp _ _ hf; omega
  | succ f ih =>
    intro i p hip hp hsc hnone hf
    rw [findNSC]
    have hg : i + 3 < d.length := by omega
    rw [if_pos hg]
    by_cases hip' : i = p
    · subst hip'
      have hor : (isStartCode4 d i || isStartCode3 d i) = true := by
        rcases hsc with h | h <;> simp [h]
      rw [hor]
      simp
    · have hlt : i < p := by omega
      obtain ⟨h4, h3⟩ := hnone i (le_refl i) hlt
      rw [h4, h3]
      simp only [Bool.or_self, Bool.false_eq_true, if_false]
      exact ih (i+1) p (by omega) hp hsc
        (fun j hj hjp => hnone j (by omega) hjp) (by omega)

theorem noSC_in_body (d : List Nat) (q : Nat) (n : List Nat)
    (htr : ∀ k, k < n.length → byteAt d (q + k) = n.getD k 2)
    (h001 : has001 n = false)
    (hnn : n ≠ [])
    (hlast : ¬ (n.getD (n.length - 1) 2 = 0))
    (htail : q + n.length < d.length → byteAt d (q + n.length) = 0) :
    ∀ j, q ≤ j → j < q + n.length → j + 3 < d.length →
      isStartCode4 d j = false ∧ isStartCode3 d j = false := by
  intro j hqj hjp hj3
  have hn1 : 1 ≤ n.length := List.length_pos.mpr hnn
  have hbody : ∀ m, q ≤ m → m < q + n.length → byteAt d m = n.getD (m - q) 2 := by
    intro m h1 h2
    have hb := htr (m - q) (by omega)
    rwa [show q + (m - q) = m by omega] at hb
  have hlastb : byteAt d (q + n.length - 1) = n.getD (n.length - 1) 2 := by
    have hb := hbody (q + n.length - 1) (by omega) (by omega)
    rwa [show q + n.length - 1 - q = n.length - 1 by omega] at hb
  constructor
  · by_contra hbad
    rw [Bool.not_eq_false] at hbad
    rw [isStartCode4] at hbad
    simp only [Bool.and_eq_true, beq_iff_eq] at hbad
    obtain ⟨⟨⟨h0, h1⟩, h2⟩, h3⟩ := hbad
    rcases (by omega :
        j + 3 < q + n.length ∨ j + 3 = q + n.length ∨
        j + 2 = q + n.length ∨ j + 1 = q + n.length) with hc | hc | hc | hc
    · apply has001_false n h001 (j + 1 - q)
      rw [show j + 1 - q + 1 = j + 2 - q by omega, show j + 1 - q + 2 = j + 3 - q by omega]
      refine ⟨?_, ?_, ?_⟩
      · rw [← hbody (j+1) (by omega) (by omega)]; exact h1
      · rw [← hbody (j+2) (by omega) (by omega)]; exact h2
      · rw [← hbody (j+3) (by omega) (by omega)]; exact h3
    · have ht := htail (by omega)
      rw [← hc] at ht
      omega
    · rw [show j + 1 = q + n.length - 1 by omega, hlastb] at h1
      exact hlast h1
    · rw [show j = q + n.length - 1 by omega, hlastb] at h0
      exact hlast h0
  · by_contra hbad
    rw [Bool.not_eq_false] at hbad
    rw [isStartCode3] at hbad
    simp only [Bool.and_eq_true, beq_iff_eq] at hbad
    obtain ⟨⟨h0, h1⟩, h2⟩ := hbad
    rcases (by omega :
        j + 2 < q + n.length ∨ j + 2 = q + n.length ∨
        j + 1 = q + n.length) with hc | hc | hc
    · apply has001_false n h001 (j - q)
      rw [show j - q + 1 = j + 1 - q by omega, show j - q + 2 = j + 2 - q by omega]
      refine ⟨?_, ?_, ?_⟩
      · rw [← hbody j (by omega) (by omega)]; exact h0
      · rw [← hbody (j+1) (by omega) (by omega)]; exact h1
      · rw [← hbody (j+2) (by omega) (by omega)]; exact h2
    · have ht := htail (by omega)
      rw [← hc] at ht
      omega
    · rw [show j = q + n.length - 1 by omega, hlastb] at h0
      exact hlast h0

theorem parseABLoop_convert :
    ∀ (ns : List (List Nat)) (d : List Nat) (i fuel : Nat),
    (∀ n ∈ ns, goodBody n = true) → d.drop i = ConvertToAnnexB ns →
    d.length - i < fuel →
    parseABLoop d fuel i = ns := by
  intro ns
  induction ns with
  | nil =>
    intro d i fuel _ hd hf
    have hle : d.length ≤ i := by
      have hlen := congrArg List.length hd
      rw [List.length_drop] at hlen
      simp [ConvertToAnnexB] at hlen
      omega
    cases fuel with
    | zero => omega
    | succ f =>
      rw [parseABLoop, if_neg (by omega)]
  | cons n rest ih =>
    intro d i fuel hgood hd hf
    obtain ⟨hnn, h001, hlastne⟩ := goodBody_spec n (hgood n (by simp))
    have hgr : ∀ m ∈ rest, goodBody m = true := fun m hm => hgood m (by simp [hm])
    have hn1 : 1 ≤ n.length := List.length_pos.mpr hnn
    have hconv : ConvertToAnnexB (n :: rest) =
        0 :: 0 :: 0 :: 1 :: (n ++ ConvertToAnnexB rest) := by
      simp [ConvertToAnnexB]
    rw [hconv] at hd
    have hlen : d.length - i = 4 + n.length + (ConvertToAnnexB rest).length := by
      have hlen := congrArg List.length hd
      rw [List.length_drop] at hlen
      simp at hlen
      omega
    have hid : i < d.length := by omega
    have hdlen : d.length = i + 4 + n.length + (ConvertToAnnexB rest).length := by
      omega
    have hbyte : ∀ k, byteAt d (i + k) =
        byteAt (0 :: 0 :: 0 :: 1 :: (n ++ ConvertToAnnexB rest)) k :=
      bytes_from_drop d i _ hd
    have hsc4 : isStartCode4 d i = true := by
      have e0 : byteAt d i = 0 := by simpa [byteAt] using hbyte 0
      have e1 : byteAt d (i+1) = 0 := by simpa [byteAt] using hbyte 1
      have e2 : byteAt d (i+2) = 0 := by simpa [byteAt] using hbyte 2
      have e3 : byteAt d (i+3) = 1 := by simpa [byteAt] using hbyte 3
      rw [isStartCode4, e0, e1, e2, e3]
      rfl
    have hdrop4 : d.drop (i + 4) = n ++ ConvertToAnnexB rest := by
      rw [← List.drop_drop 4 i d, hd]
      rfl
    have hlastD : ¬ (n.getD (n.length - 1) 2 = 0) := by
      rwa [getLastD_eq_getD n hnn] at hlastne
    have htr : ∀ k, k < n.length → byteAt d ((i+4) + k) = n.getD k 2 := by
      intro k hk
      rw [bytes_from_drop d (i+4) _ hdrop4 k]
      show (n ++ ConvertToAnnexB rest).getD k 2 = n.getD k 2
      exact List.getD_append _ _ _ _ hk
    cases fuel with
    | zero => omega
    | succ f =>
    have hg : i + 3 < d.length := by omega
    cases rest with
    | nil =>
      have hdlen' : d.length = i + 4 + n.length := by
        simpa [ConvertToAnnexB] using hdlen
      have hnosc := noSC_in_body d (i+4) n htr h001 hnn hlastD
        (fun h => absurd h (by omega))
      have hfind : findNextStartCode d (i + 4) = none := by
        rw [findNextStartCode]
        exact findNSC_none d _ (i+4) (fun j hj hj3 => hnosc j hj (by omega) hj3)
      simp only [parseABLoop]
      rw [if_pos hg, if_pos hsc4, hfind]
      show (if i + 4 < (none : Option Nat).getD d.length then
          [(d.drop (i + 4)).take ((none : Option Nat).getD d.length - (i + 4))]
        else []) ++ parseABLoop d f ((none : Option Nat).getD d.length) = [n]
      simp only [Option.getD_none]
      rw [if_pos (by omega)]
      have hbody : (d.drop (i + 4)).take (d.length - (i + 4)) = n := by
        rw [hdrop4, show d.length - (i + 4) = n.length by omega]
        simpa [ConvertToAnnexB] using List.take_left n (ConvertToAnnexB ([] : List (List Nat)))
      rw [hbody]
      have hrec : parseABLoop d f d.length = [] := by
        apply ih d d.length f (by intro m hm; cases hm)
        · rw [List.drop_length]
          rfl
        · omega
      rw [hrec]
      rfl
    | cons r rest' =>
      obtain ⟨hrnn, _, _⟩ := goodBody_spec r (hgr r (by simp))
      have hrlen : 1 ≤ r.length := List.length_pos.mpr hrnn
      have hLconv : ConvertToAnnexB (r :: rest') =
          0 :: 0 :: 0 :: 1 :: (r ++ ConvertToAnnexB rest') := by
        simp [ConvertToAnnexB]
      have hLlen : (ConvertToAnnexB (r :: rest')).length =
          4 + r.length + (ConvertToAnnexB rest').length := by
        rw [hLconv]; simp; omega
      have hdropp : d.drop (i + 4 + n.length) = ConvertToAnnexB (r :: rest') := by
        rw [← List.drop_drop n.length (i+4) d, hdrop4]
        exact List.drop_left n (ConvertToAnnexB (r :: rest'))
      have hLbytes : ∀ m, byteAt d (i + 4 + n.length + m) =
          byteAt (0 :: 0 :: 0 :: 1 :: (r ++ ConvertToAnnexB rest')) m :=
        bytes_from_drop d (i+4+n.length) _ (hdropp.trans hLconv)
      have hsc4p : isStartCode4 d (i + 4 + n.length) = true := by
        have e0 : byteAt d (i+4+n.length) = 0 := by simpa [byteAt] using hLbytes 0
        have e1 : byteAt d (i+4+n.length+1) = 0 := by simpa [byteAt] using hLbytes 1
        have e2 : byteAt d (i+4+n.length+2) = 0 := by simpa [byteAt] using hLbytes 2
        have e3 : byteAt d (i+4+n.length+3) = 1 := by simpa [byteAt] using hLbytes 3
        rw [isStartCode4, e0, e1, e2, e3]
        rfl
      have htail : i + 4 + n.length < d.length → byteAt d (i + 4 + n.length) = 0 :=
        fun _ => by simpa [byteAt] using hLbytes 0
      have hnosc := noSC_in_body d (i+4) n htr h001 hnn hlastD htail
      have hfind : findNextStartCode d (i + 4) = some (i + 4 + n.length) := by
        rw [findNextStartCode]
        refine findNSC_some d _ (i+4) (i+4+n.length) (by omega) (by omega)
          (Or.inl hsc4p) (fun j hj hjp => hnosc j hj hjp (by omega)) (by omega)
      simp only [parseABLoop]
      rw [if_pos hg, if_pos hsc4, hfind]
      show (if i + 4 < (some (i+4+n.length) : Option Nat).getD d.length then
          [(d.drop (i + 4)).take
            ((some (i+4+n.length) : Option Nat).getD d.length - (i + 4))]
        else []) ++
          parseABLoop d f ((some (i+4+n.length) : Option Nat).getD d.length) =
        n :: r :: rest'
      simp only [Option.getD_some]
      rw [if_pos (by omega)]
      have hbody : (d.drop (i + 4)).take (i + 4 + n.length - (i + 4)) = n := by
        rw [hdrop4, show i + 4 + n.length - (i + 4) = n.length by omega]
        exact List.take_left n (ConvertToAnnexB (r :: rest'))
      rw [hbody]
      have hrec : parseABLoop d f (i + 4 + n.length) = r :: rest' := by
        apply ih d (i+4+n.length) f hgr hdropp
        omega
      rw [hrec]
      rfl

theorem convert_resplit (ns : List (List Nat)) (h : ∀ n ∈ ns, goodBody n = true) :
    FindNALUnits (ConvertToAnnexB ns) = ns := by
  cases ns with
  | nil => rfl
  | cons n rest =>
    have hconv : ConvertToAnnexB (n :: rest) =
        0 :: 0 :: 0 :: 1 :: (n ++ ConvertToAnnexB rest) := by
      simp [ConvertToAnnexB]
    have hAB : isAnnexBFormat (ConvertToAnnexB (n :: rest)) = true := by
      simp [isAnnexBFormat, hconv, byteAt]
    rw [FindNALUnits, if_pos hAB, parseAnnexBFormat]
    apply parseABLoop_convert (n :: rest) _ 0 _ h
    · rw [List.drop_zero]
    · omega

/-- C3 (amended): splitting a buffer into NAL bodies and reassembling with
4-byte start codes re-splits to the original body sequence, PROVIDED each
body contains no `00 00 01` pattern and does not end in a zero byte (both
possible for length-prefixed input, where the round trip then fails — see
the counterexample). -/
theorem c3_roundtrip_good_bodies :
    ∀ (b : List Nat), (∀ n ∈ FindNALUnits b, goodBody n = true) →
    FindNALUnits (ConvertToAnnexB (FindNALUnits b)) = FindNALUnits b :=
  fun b h => convert_resplit (FindNALUnits b) h

/-- Witness for C3 on a concrete two-NAL Annex-B buffer. -/
theorem c3_witness :
    FindNALUnits (ConvertToAnnexB
      (FindNALUnits [0, 0, 0, 1, 103, 42, 0, 0, 0, 1, 101, 7])) =
      FindNALUnits [0, 0, 0, 1, 103, 42, 0, 0, 0, 1, 101, 7] :=
  c3_roundtrip_good_bodies [0, 0, 0, 1, 103, 42, 0, 0, 0, 1, 101, 7] (by decide)
